import Mathlib

/-
Verification development for the audiomux repository (knoellle/audiomux).

The development shallowly embeds the core of src/main.rs and
src/interleave_all.rs:

* `InterleaveAll` / `interleave_all` / `InterleaveAll.next` mirror the lazy
  round-robin iterator of src/interleave_all.rs.  Rust iterators over
  vectors are embedded as lists; calling `next` on an exhausted list yields
  `none` and leaves the list empty, exactly as a Rust vector iterator does.
* `BufferItem`, `AutoPausing`, `Input`, `Input.buffered_samples` mirror the
  data model of src/main.rs (lines 16-72).  Sample values (f32 in the
  source) are embedded as rationals; the silence threshold `abs < 0.01`
  of line 134 becomes `|x| < 1/100`.
* `ingestFrame` embeds the per-input ingest phase of the process callback
  (src/main.rs lines 130-163).  A VecDeque is embedded as a list whose head
  is the front of the deque.
* `TimeStretch`, `drainIter`, `drainLoop` embed the Step-B drain loop of the
  process callback (src/main.rs lines 165-235).  The SoundTouch engine is an
  external C++ library, so the adapter is a parameter: any state type with a
  `put` and a `receive` operation.  The sort of inputs by f32 urgency
  (lines 167-172) is embedded as a `select` parameter that returns the index
  of the chosen input; the concrete `selectFirst` is the exact behavior for
  states with a single input, where the sort is the identity.
* `pausingTick` / `runTicks` embed one pass of the housekeeping loop body
  over one pausable input (src/main.rs lines 259-277), with the spawned
  shell commands recorded as `PauseEvent`s instead of side effects.
* `f32OfUsize` / `Input.urgency` embed Input::urgency (src/main.rs
  lines 65-71): the usize-to-f32 casts are modelled exactly (round to
  nearest, ties to even, 24 significand bits) and the f32 square root is
  an abstract function parameter.
-/

/-- BufferItem, src/main.rs lines 16-19.  `Samples` holds one captured
frame as per-channel sample vectors; `Silence` is a run-length encoded
count of silent samples. -/
inductive BufferItem : Type
  | Samples (samples : List (List ℚ))
  | Silence (count : Nat)
deriving DecidableEq

/-- AutoPausing, src/main.rs lines 21-27. -/
structure AutoPausing : Type where
  source_paused : Bool
  pause_threshold : Nat
  resume_threshold : Nat
  pause_command : String
  resume_command : String
deriving DecidableEq

/-- Input, src/main.rs lines 29-34.  The JACK ports are owned by the device
layer; the captured frames they deliver are passed to `ingestFrame` as
explicit arguments, so the embedded struct keeps only the buffer and the
optional auto-pause state. -/
structure Input : Type where
  buffer : List BufferItem
  pausing : Option AutoPausing
deriving DecidableEq

/-- sample count of one buffered unit: `samples[0].len()` for a Samples
unit and 0 for a Silence unit, src/main.rs lines 58-61. -/
def BufferItem.sampleCount : BufferItem → Nat
  | BufferItem.Samples samples => samples.headI.length
  | BufferItem.Silence _ => 0

/-- Input::buffered_samples, src/main.rs lines 55-63. -/
def Input.buffered_samples (inp : Input) : Nat :=
  (inp.buffer.map BufferItem.sampleCount).sum

/-- fueled floor of the base-2 logarithm (`log2Fuel fuel n` halves `n`
until it reaches 1); fuel 64 covers every usize value. -/
def log2Fuel : Nat → Nat → Nat
  | 0, _ => 0
  | fuel + 1, n => if n ≤ 1 then 0 else log2Fuel fuel (n / 2) + 1

/-- floor of the base-2 logarithm of a usize value. -/
def natLog2 (n : Nat) : Nat := log2Fuel 64 n

/-- the integer value of the Rust cast `n as f32` for a usize `n`: round
to nearest, ties to even, onto 24 significand bits.  Every usize fits in
the f32 exponent range and every rounded value is an integer, so the
result is returned as a natural number.  Counts below 2^24 are exact;
above, the low `s = floor(log2 n) - 23` bits are rounded away. -/
def f32OfUsize (n : Nat) : Nat :=
  if n < 2 ^ 24 then n
  else
    if n % 2 ^ (natLog2 n - 23) < 2 ^ (natLog2 n - 23 - 1) then
      n / 2 ^ (natLog2 n - 23) * 2 ^ (natLog2 n - 23)
    else
      if 2 ^ (natLog2 n - 23 - 1) < n % 2 ^ (natLog2 n - 23) then
        (n / 2 ^ (natLog2 n - 23) + 1) * 2 ^ (natLog2 n - 23)
      else
        if n / 2 ^ (natLog2 n - 23) % 2 = 0 then
          n / 2 ^ (natLog2 n - 23) * 2 ^ (natLog2 n - 23)
        else
          (n / 2 ^ (natLog2 n - 23) + 1) * 2 ^ (natLog2 n - 23)

/-- the value of `n as f32`, as an exact rational. -/
def usizeToF32 (n : Nat) : ℚ := (f32OfUsize n : ℚ)

/-- the silence penalty of Input::urgency, src/main.rs lines 66-69: the
length of a leading Silence run (cast to f32), else 0. -/
def silencePenalty (inp : Input) : ℚ :=
  match inp.buffer.head? with
  | some (BufferItem.Silence count) => usizeToF32 count
  | _ => 0

/-- Input::urgency, src/main.rs lines 65-71:
`(buffered_samples() as f32).sqrt() - silence_penalty`.  The usize-to-f32
casts are embedded exactly by `usizeToF32`; the f32 square root is left
as an abstract parameter (any function of the rounded operand).  The
final f32 subtraction is embedded as exact rational subtraction, which
agrees with the f32 subtraction whenever the penalty is 0. -/
def Input.urgency (inp : Input) (sqrtF : ℚ → ℚ) : ℚ :=
  sqrtF (usizeToF32 inp.buffered_samples) - silencePenalty inp

/-- an input with no leading silence holding 2^25 + 1 buffered samples
(one mono Samples unit). -/
def hugeInputA : Input :=
  { buffer := [BufferItem.Samples [List.replicate (2 ^ 25 + 1) 1]],
    pausing := none }

/-- an input with no leading silence holding 2^25 buffered samples. -/
def hugeInputB : Input :=
  { buffer := [BufferItem.Samples [List.replicate (2 ^ 25) 1]],
    pausing := none }

/-- f32::abs, embedded on the rationals. -/
def ratAbs (x : ℚ) : ℚ := if x < 0 then -x else x

/-- the silence classification of one captured frame, src/main.rs
lines 131-134: every sample of every port has absolute value below 0.01. -/
def frameSilent (frame : List (List ℚ)) : Bool :=
  frame.all (fun port => port.all (fun x => decide (ratAbs x < mkRat 1 100)))

/-- true when the back of the queue is a Silence run. -/
def backIsSilence (buffer : List BufferItem) : Bool :=
  match buffer.getLast? with
  | some (BufferItem.Silence _) => true
  | _ => false

/-- the per-input ingest phase of the process callback, src/main.rs
lines 130-163.  `frame` is the captured per-channel frame of this input and
`frame_size` the device frame length (`inputs[0].ports[0].len()`).

* silent frame, back of queue is Silence: extend the run, saturating
  at 4800 (line 139);
* silent frame, empty queue: keep it empty (line 143);
* silent frame, back is Samples: append a new Silence run of one frame
  (line 145);
* non-silent frame: if the queue holds exactly one unit and it is a
  Silence run, drop it (lines 151-155); then append the frame
  (line 162). -/
def ingestFrame (buffer : List BufferItem) (frame : List (List ℚ))
    (frame_size : Nat) : List BufferItem :=
  if frameSilent frame then
    match buffer.getLast? with
    | some (BufferItem.Silence n) =>
        buffer.dropLast ++ [BufferItem.Silence (min 4800 (n + frame_size))]
    | none => buffer
    | some (BufferItem.Samples _) => buffer ++ [BufferItem.Silence frame_size]
  else
    (if buffer.length == 1 && backIsSilence buffer then buffer.tail else buffer)
      ++ [BufferItem.Samples frame]

/-- InterleaveAll, src/interleave_all.rs lines 1-7, with the underlying
iterators embedded as lists. -/
structure InterleaveAll (α : Type) : Type where
  index : Nat
  iterators : List (List α)
deriving DecidableEq

/-- interleave_all, src/interleave_all.rs lines 9-19. -/
def interleave_all {α : Type} (ls : List (List α)) : InterleaveAll α :=
  { index := 0, iterators := ls }

/-- Iterator::next for InterleaveAll, src/interleave_all.rs lines 27-32:
read the current slot, advance the index round-robin, and propagate the
underlying iterator's answer (on an exhausted slot this is `none`, not a
skip).  The source indexes `self.iterators[index]` unconditionally; that
index is always in bounds when the collection is nonempty, which every
claim assumes. -/
def InterleaveAll.next {α : Type} (s : InterleaveAll α) :
    Option α × InterleaveAll α :=
  match s.iterators.get? s.index with
  | some (x :: xs) =>
      (some x, { index := (s.index + 1) % s.iterators.length,
                 iterators := s.iterators.set s.index xs })
  | _ =>
      (none, { index := (s.index + 1) % s.iterators.length,
               iterators := s.iterators })

/-- the state of the interleaving iterator after `m` calls to `next`. -/
def stateAfter {α : Type} : Nat → InterleaveAll α → InterleaveAll α
  | 0, s => s
  | m + 1, s => stateAfter m s.next.2

/-- the value produced by the (m+1)-st call to `next` (0-indexed `m`). -/
def nthNext {α : Type} (m : Nat) (s : InterleaveAll α) : Option α :=
  (stateAfter m s).next.1

/-- fueled embedding of `Iterator::collect`: keep calling `next` and stop
at the first `none`. -/
def collectIA {α : Type} : Nat → InterleaveAll α → List α
  | 0, _ => []
  | fuel + 1, s =>
      match s.next with
      | (none, _) => []
      | (some x, t) => x :: collectIA fuel t

/-- total number of elements held by a collection of sequences. -/
def totalLen {α : Type} (ls : List (List α)) : Nat :=
  (ls.map List.length).sum

/-- `interleave_all(ls).collect()`: each `some` step of `collectIA`
consumes one element of `ls` and the first `none` step stops it, so fuel
`totalLen ls + 1` is never exhausted and this equals the Rust collect. -/
def collectAll {α : Type} (ls : List (List α)) : List α :=
  collectIA (totalLen ls + 1) (interleave_all ls)

/-- number of elements slot `j` of `K` slots has yielded after `m`
round-robin calls starting at slot 0: one per completed round, plus one
more when the current round has already passed slot `j`. -/
def dropCount (K j m : Nat) : Nat :=
  m / K + if j < m % K then 1 else 0

/-- the Time-Stretch Adapter interface used by the drain loop
(src/sound_touch.rs lines 150-173): `put` enqueues interleaved samples,
`receive` returns up to the requested number of processed samples together
with the successor engine state.  The SoundTouch engine itself is an
external C++ library, so the engine state is an arbitrary type `σ`. -/
structure TimeStretch (σ : Type) : Type where
  put : σ → List ℚ → σ
  receive : σ → Nat → List ℚ × σ

/-- the state threaded through the Step-B drain loop of the process
callback (src/main.rs lines 165-235): the input buffers, the engine state,
the per-channel output frame contents, and `written_samples`.  The extra
`writes` field instruments the embedding: it counts, per output channel,
how many sample positions have been written so far during this callback
(a slice `fill` counts its whole length, a `clone_from_slice` counts the
length of the copied slice). -/
structure DrainState (σ : Type) : Type where
  inputs : List Input
  st : σ
  output : List (List ℚ)
  writes : List Nat
  written_samples : Nat
deriving DecidableEq

/-- outcome of one iteration of the drain loop. -/
inductive StepOut (σ : Type) : Type
  | cont (d : DrainState σ)
  | done (d : DrainState σ)
  | panicked
deriving DecidableEq

/-- outcome of the whole (fueled) drain loop. -/
inductive LoopOut (σ : Type) : Type
  | ok (d : DrainState σ)
  | panicked
  | fuelOut
deriving DecidableEq

/-- fueled embedding of `Iterator::step_by`: every `step`-th element,
starting at the head.  Fuel `l.length` always suffices because every
recursive call consumes at least one list element. -/
def everyNthAux {α : Type} : Nat → Nat → List α → List α
  | 0, _, _ => []
  | _ + 1, _, [] => []
  | fuel + 1, step, x :: xs => x :: everyNthAux fuel step (xs.drop (step - 1))

/-- `l.iter().step_by(step)` collected to a list. -/
def everyNth {α : Type} (step : Nat) (l : List α) : List α :=
  everyNthAux l.length step l

/-- the deinterleave step of the Samples branch, src/main.rs
lines 203-212: channel `idx` receives `mixed.iter().skip(idx).step_by(channels)`. -/
def unmix (channels : Nat) (mixed : List ℚ) : List (List ℚ) :=
  (List.range channels).map (fun idx => everyNth channels (mixed.drop idx))

/-- the input chosen by one drain iteration, src/main.rs lines 167-182:
the source stably sorts the inputs by descending f32 urgency and picks the
first with positive backlog.  f32 arithmetic is not embedded, so the
choice is a parameter of the loop; `selectFirst` is the source behavior
whenever at most one input has backlog (in particular for every
single-input state), since the sort is then irrelevant. -/
def selectFirst (inputs : List Input) : Option Nat :=
  inputs.findIdx? (fun inp => decide (0 < inp.buffered_samples))

/-- the put-then-receive exchange with the engine in the Samples branch,
src/main.rs lines 186-197: interleave the per-channel vectors, `put` all
of them, then `receive` up to `(frame_size - written_samples) * channels`
samples.  The source lets `receive` write into the buffer that held the
interleaved samples and then truncates it to the returned count, so the
first component here is exactly the truncated `mixed_samples`. -/
def receivedOf {σ : Type} (ts : TimeStretch σ) (frame_size channels : Nat)
    (d : DrainState σ) (samples : List (List ℚ)) : List ℚ × σ :=
  ts.receive (ts.put d.st (collectAll samples))
    ((frame_size - d.written_samples) * channels)

/-- the Samples branch of the drain loop, src/main.rs lines 186-220:
deinterleave the received samples and copy channel `idx` into
`output[idx][written_samples..]`.  `clone_from_slice` requires source and
destination lengths to be equal and panics otherwise (the destination
slice has length `frame_size - written_samples`).  `written_samples`
advances by `num_samples`, the count of received interleaved samples
(line 219). -/
def samplesBranch {σ : Type} (ts : TimeStretch σ) (frame_size channels : Nat)
    (d : DrainState σ) (i : Nat) (input : Input) (samples : List (List ℚ))
    (rest : List BufferItem) : StepOut σ :=
  if (unmix channels (receivedOf ts frame_size channels d samples).1).all
      (fun chan => chan.length == frame_size - d.written_samples) then
    StepOut.cont {
      inputs := d.inputs.set i { input with buffer := rest },
      st := (receivedOf ts frame_size channels d samples).2,
      output :=
        ((d.output.zip (unmix channels (receivedOf ts frame_size channels d samples).1)).map
          (fun p => p.1.take d.written_samples ++ p.2))
        ++ d.output.drop channels,
      writes :=
        ((d.writes.zip (unmix channels (receivedOf ts frame_size channels d samples).1)).map
          (fun p => p.1 + p.2.length))
        ++ d.writes.drop channels,
      written_samples := d.written_samples
        + (receivedOf ts frame_size channels d samples).1.length }
  else StepOut.panicked

/-- the Silence branch queue update, src/main.rs lines 222-228:
`silence_remaining = count as isize - frame_size as isize`; when positive,
a Silence run holding the remainder is pushed back onto the front. -/
def silencePushback (count frame_size : Nat) (rest : List BufferItem) :
    List BufferItem :=
  if 0 < (count : Int) - (frame_size : Int) then
    BufferItem.Silence (count - frame_size) :: rest
  else rest

/-- one iteration of the Step-B drain loop, src/main.rs lines 166-235.

* loop guard `written_samples < frame_size` (line 166);
* no input with backlog: zero the whole frame of every output channel and
  return from the callback (lines 175-181) — note the source fills the
  entire slice, not only the unwritten suffix;
* Samples unit (lines 186-220): interleave, `put`, `receive` up to
  `(frame_size - written_samples) * channels`, truncate to the count
  actually received, deinterleave, then
  `port[written_samples..].clone_from_slice(chan)` for every channel —
  which panics unless every deinterleaved channel has length exactly
  `frame_size - written_samples` — and advance `written_samples` by the
  interleaved count `num_samples` (line 219);
* Silence unit (lines 221-233): push the remainder beyond one frame back
  onto the front, then zero the whole frame of every output channel
  without advancing `written_samples`. -/
def drainIter {σ : Type} (ts : TimeStretch σ) (select : List Input → Option Nat)
    (frame_size channels : Nat) (d : DrainState σ) : StepOut σ :=
  if d.written_samples < frame_size then
    match select d.inputs with
    | none =>
        StepOut.done { d with
          output := d.output.map (fun _ => List.replicate frame_size (0 : ℚ)),
          writes := d.writes.map (fun w => w + frame_size) }
    | some i =>
        match d.inputs.get? i with
        | none => StepOut.panicked
        | some input =>
            match input.buffer with
            | [] => StepOut.panicked
            | BufferItem.Samples samples :: rest =>
                samplesBranch ts frame_size channels d i input samples rest
            | BufferItem.Silence count :: rest =>
                StepOut.cont {
                  inputs := d.inputs.set i
                    { input with buffer := silencePushback count frame_size rest },
                  st := d.st,
                  output := d.output.map (fun _ => List.replicate frame_size (0 : ℚ)),
                  writes := d.writes.map (fun w => w + frame_size),
                  written_samples := d.written_samples }
  else StepOut.done d

/-- the fueled Step-B drain loop, src/main.rs lines 165-235. -/
def drainLoop {σ : Type} (ts : TimeStretch σ) (select : List Input → Option Nat)
    (frame_size channels : Nat) : Nat → DrainState σ → LoopOut σ
  | 0, _ => LoopOut.fuelOut
  | fuel + 1, d =>
      match drainIter ts select frame_size channels d with
      | StepOut.done e => LoopOut.ok e
      | StepOut.panicked => LoopOut.panicked
      | StepOut.cont e => drainLoop ts select frame_size channels fuel e

/-- a pass-through engine: `put` appends to an internal queue, `receive`
returns up to the requested count from its front. -/
def queueAdapter : TimeStretch (List ℚ) :=
  { put := fun s l => s ++ l, receive := fun s k => (s.take k, s.drop k) }

/-- an engine whose algorithmic latency is never satisfied: `receive`
always returns zero samples, which §4.4 of the spec allows at any time. -/
def deadAdapter : TimeStretch Unit :=
  { put := fun s _ => s, receive := fun s _ => ([], s) }

/-- termination measure of one buffered unit: a Samples unit counts 1, a
Silence run counts its length plus 1. -/
def BufferItem.measure : BufferItem → Nat
  | BufferItem.Samples _ => 1
  | BufferItem.Silence count => count + 1

/-- termination measure of one input: the sum over its buffered units. -/
def Input.measure (inp : Input) : Nat :=
  (inp.buffer.map BufferItem.measure).sum

/-- termination measure of a drain state: the sum over all inputs. -/
def drainMeasure {σ : Type} (d : DrainState σ) : Nat :=
  (d.inputs.map Input.measure).sum

/-- the side effects the housekeeping loop can spawn for one pausable
input: `bash -c resume_command` or `bash -c pause_command`. -/
inductive PauseEvent : Type
  | resumed
  | didPause
deriving DecidableEq

/-- one housekeeping evaluation of the Auto-Pause state machine for one
input, src/main.rs lines 259-277: given the backlog `buffered_samples`,
first resume when paused and the backlog is below the resume threshold,
then (reading the possibly updated flag) pause when not paused and the
backlog is above the pause threshold.  Spawned commands are recorded as
events. -/
def pausingTick (p : AutoPausing) (buffered_samples : Nat) :
    AutoPausing × List PauseEvent :=
  if p.source_paused && decide (buffered_samples < p.resume_threshold) then
    -- the resume branch fired and cleared source_paused, so the second if
    -- of the source then tests `!false && backlog > pause_threshold`
    if decide (p.pause_threshold < buffered_samples) then
      ({ p with source_paused := true }, [PauseEvent.resumed, PauseEvent.didPause])
    else ({ p with source_paused := false }, [PauseEvent.resumed])
  else
    if !p.source_paused && decide (p.pause_threshold < buffered_samples) then
      ({ p with source_paused := true }, [PauseEvent.didPause])
    else (p, [])

/-- a sequence of housekeeping ticks over a backlog trace, recording every
spawned command together with the backlog that triggered it. -/
def runTicks : AutoPausing → List Nat → AutoPausing × List (Nat × PauseEvent)
  | p, [] => (p, [])
  | p, b :: bs =>
      ((runTicks (pausingTick p b).1 bs).1,
        (pausingTick p b).2.map (fun e => (b, e))
          ++ (runTicks (pausingTick p b).1 bs).2)

/-- the Auto-Pause configuration of the second input, src/main.rs
lines 112-118, with `source_paused := true` representing the state after
the backlog has risen past the pause threshold. -/
def pausedConfig : AutoPausing :=
  { source_paused := true, pause_threshold := 48000, resume_threshold := 4800,
    pause_command := "playerctl pause", resume_command := "playerctl play" }

/-- callback state used to exercise the drain loop: frame_size 2,
channels 2, one input whose queue holds a one-sample Silence run followed
by a full two-channel Samples frame; the output frame still holds the
previous callback contents (9s). -/
def silenceThenSamples : DrainState (List ℚ) :=
  { inputs := [{ buffer := [BufferItem.Silence 1,
                            BufferItem.Samples [[5, 7], [11, 13]]],
                 pausing := none }],
    st := [], output := [[9, 9], [9, 9]], writes := [0, 0],
    written_samples := 0 }

/-- callback state for the Samples branch: frame_size 2, channels 2, one
input holding one full Samples frame, engine with nothing ready yet. -/
def samplesOnlyDead : DrainState Unit :=
  { inputs := [{ buffer := [BufferItem.Samples [[5, 7], [11, 13]]],
                 pausing := none }],
    st := (), output := [[9, 9], [9, 9]], writes := [0, 0],
    written_samples := 0 }

/-- the same state with the pass-through engine. -/
def samplesOnlyQueue : DrainState (List ℚ) :=
  { inputs := [{ buffer := [BufferItem.Samples [[5, 7], [11, 13]]],
                 pausing := none }],
    st := [], output := [[9, 9], [9, 9]], writes := [0, 0],
    written_samples := 0 }

/-- a 4801-sample silent frame on one channel, for a callback whose
device frame length is 4801. -/
def bigSilentFrame : List (List ℚ) := [List.replicate 4801 0]

/-- a 4801-sample loud frame on one channel. -/
def bigLoudFrame : List (List ℚ) := [List.replicate 4801 1]

/-- every Silence run stored in the queue is at most 4800 samples long. -/
def runsCapped (buffer : List BufferItem) : Bool :=
  buffer.all (fun item =>
    match item with
    | BufferItem.Silence n => decide (n ≤ 4800)
    | BufferItem.Samples _ => true)

lemma pausingTick_resume_threshold (p : AutoPausing) (b : Nat) :
    (pausingTick p b).1.resume_threshold = p.resume_threshold := by
  unfold pausingTick
  split
  · split <;> rfl
  · split <;> rfl

lemma pausingTick_pause_threshold (p : AutoPausing) (b : Nat) :
    (pausingTick p b).1.pause_threshold = p.pause_threshold := by
  unfold pausingTick
  split
  · split <;> rfl
  · split <;> rfl

lemma pausingTick_events (p : AutoPausing) (b : Nat)
    (hth : p.resume_threshold ≤ p.pause_threshold) :
    ∀ e ∈ (pausingTick p b).2,
      (e = PauseEvent.resumed → b < p.resume_threshold) ∧
      (e = PauseEvent.didPause → p.pause_threshold < b) := by
  intro e he
  unfold pausingTick at he
  split at he
  · next hfirst =>
    simp only [Bool.and_eq_true, decide_eq_true_eq] at hfirst
    split at he
    · next hsec =>
      simp only [decide_eq_true_eq] at hsec
      omega
    · simp only [List.mem_singleton] at he
      subst he
      exact ⟨fun _ => hfirst.2, fun h => PauseEvent.noConfusion h⟩
  · next hfirst =>
    split at he
    · next hsec =>
      simp only [Bool.and_eq_true, Bool.not_eq_eq_eq_not, Bool.not_true,
        decide_eq_true_eq] at hsec
      simp only [List.mem_singleton] at he
      subst he
      exact ⟨fun h => PauseEvent.noConfusion h, fun _ => hsec.2⟩
    · simp at he

lemma runTicks_events : ∀ (bs : List Nat) (p : AutoPausing),
    p.resume_threshold ≤ p.pause_threshold →
    ∀ e ∈ (runTicks p bs).2,
      (e.2 = PauseEvent.resumed → e.1 < p.resume_threshold) ∧
      (e.2 = PauseEvent.didPause → p.pause_threshold < e.1) := by
  intro bs
  induction bs with
  | nil =>
    intro p h e he
    simp [runTicks] at he
  | cons b bs ih =>
    intro p h e he
    simp only [runTicks, List.mem_append, List.mem_map] at he
    rcases he with ⟨ev, hev, rfl⟩ | htail
    · have hv := pausingTick_events p b h ev hev
      exact ⟨fun hh => hv.1 hh, fun hh => hv.2 hh⟩
    · have h1 := pausingTick_resume_threshold p b
      have h2 := pausingTick_pause_threshold p b
      have hrec := ih (pausingTick p b).1 (by rw [h1, h2]; exact h) e htail
      rw [h1, h2] at hrec
      exact hrec

/-- C5: ingesting one non-silent frame into a queue holding exactly one
SilenceRun leaves exactly one Samples unit holding that frame; if a
Samples unit already precedes a queued SilenceRun, the existing units and
their order are untouched and the new Samples unit is appended at the
tail. -/
theorem spec_C5_pending_silence_eviction (frame : List (List ℚ))
    (frame_size : Nat) (h : frameSilent frame = false) :
    (∀ count, ingestFrame [BufferItem.Silence count] frame frame_size
        = [BufferItem.Samples frame]) ∧
    (∀ (buffer : List BufferItem) (i j : Nat) (s : List (List ℚ)) (m : Nat),
      i < j →
      buffer.get? i = some (BufferItem.Samples s) →
      buffer.get? j = some (BufferItem.Silence m) →
      ingestFrame buffer frame frame_size
        = buffer ++ [BufferItem.Samples frame]) := by
  constructor
  · intro count
    simp [ingestFrame, h, backIsSilence]
  · intro buffer i j s m hij hi hj
    have hjlen : j < buffer.length := by
      rcases List.get?_eq_some.mp hj with ⟨hlt, _⟩
      exact hlt
    have hlen : buffer.length ≠ 1 := by omega
    simp [ingestFrame, h, hlen]

/-- C5 witness: eviction of a pending one-unit silence by a loud frame,
and append-only behavior when real audio precedes a queued silence. -/
theorem spec_C5_witness :
    ingestFrame [BufferItem.Silence 5] [[(1 : ℚ)]] 128
      = [BufferItem.Samples [[(1 : ℚ)]]] ∧
    ingestFrame [BufferItem.Samples [[(2 : ℚ)]], BufferItem.Silence 7]
        [[(1 : ℚ)]] 128
      = [BufferItem.Samples [[(2 : ℚ)]], BufferItem.Silence 7]
        ++ [BufferItem.Samples [[(1 : ℚ)]]] :=
  ⟨(spec_C5_pending_silence_eviction [[(1 : ℚ)]] 128 (by decide)).1 5,
   (spec_C5_pending_silence_eviction [[(1 : ℚ)]] 128 (by decide)).2
     [BufferItem.Samples [[(2 : ℚ)]], BufferItem.Silence 7] 0 1 [[(2 : ℚ)]] 7
     (by decide) (by decide) (by decide)⟩

/-- C6: ingesting a silent frame into an empty Input Buffer leaves the
queue empty, and repeating silent ingests on an empty buffer is
idempotent. -/
theorem spec_C6_no_phantom_silence (frame : List (List ℚ)) (frame_size : Nat)
    (h : frameSilent frame = true) :
    ingestFrame [] frame frame_size = [] ∧
    ∀ k, (fun b => ingestFrame b frame frame_size)^[k] [] = [] := by
  have h1 : ingestFrame [] frame frame_size = [] := by
    simp [ingestFrame, h]
  refine ⟨h1, ?_⟩
  intro k
  induction k with
  | zero => rfl
  | succ n ih =>
    rw [Function.iterate_succ_apply]
    simpa [h1] using ih

/-- C6 witness: a silent frame on an empty buffer, applied once and then
three more times. -/
theorem spec_C6_witness :
    ingestFrame [] [[(0 : ℚ)]] 128 = [] ∧
    (fun b => ingestFrame b [[(0 : ℚ)]] 128)^[3] [] = [] :=
  ⟨(spec_C6_no_phantom_silence [[(0 : ℚ)]] 128 (by decide)).1,
   (spec_C6_no_phantom_silence [[(0 : ℚ)]] 128 (by decide)).2 3⟩

/-- C7: the Auto-Pause machine resumes (Paused to Playing) exactly when the
backlog is strictly below the resume threshold, pauses (Playing to Paused)
exactly when the backlog is strictly above the pause threshold, makes no
transition while the backlog lies between the thresholds, and over any
sequence of housekeeping ticks every resume event is triggered by a
backlog strictly below the resume threshold — so a backlog that fell only
to a value between the thresholds (such as 5000 with thresholds 48000 and
4800) never triggers resume. -/
theorem spec_C7_autopause_hysteresis (p : AutoPausing)
    (hth : p.resume_threshold ≤ p.pause_threshold) :
    (∀ b, (PauseEvent.resumed ∈ (pausingTick p b).2 ↔
            p.source_paused = true ∧ b < p.resume_threshold) ∧
          (PauseEvent.didPause ∈ (pausingTick p b).2 ↔
            p.source_paused = false ∧ p.pause_threshold < b) ∧
          (p.resume_threshold ≤ b → b ≤ p.pause_threshold →
            pausingTick p b = (p, []))) ∧
    (∀ (bs : List Nat), ∀ e ∈ (runTicks p bs).2,
        (e.2 = PauseEvent.resumed → e.1 < p.resume_threshold) ∧
        (e.2 = PauseEvent.didPause → p.pause_threshold < e.1)) := by
  constructor
  · intro b
    by_cases h1 : b < p.resume_threshold <;>
      by_cases h2 : p.pause_threshold < b <;>
      cases hp : p.source_paused <;>
      refine ⟨?_, ?_, ?_⟩ <;>
      simp [pausingTick, hp, h1, h2] <;>
      omega
  · exact fun bs => runTicks_events bs p hth

/-- C7 witness: with thresholds 48000/4800 and the source paused, a
backlog of 5000 (between the thresholds) causes no transition and no
spawned command. -/
theorem spec_C7_witness : pausingTick pausedConfig 5000 = (pausedConfig, []) :=
  ((spec_C7_autopause_hysteresis pausedConfig (by decide)).1 5000).2.2
    (by decide) (by decide)

/-- C1: refuted on the code.  With frame_size 2, draining a one-sample
Silence run followed by a Samples frame writes 4 samples per output
channel in one callback (the Silence branch zero-fills the whole frame
without advancing the cursor, then the Samples write covers the whole
frame again), not exactly frame_size = 2 as the claim requires. -/
theorem spec_C1_total_writes_exceed_frame_size :
    drainLoop queueAdapter selectFirst 2 2 4 silenceThenSamples
      = LoopOut.ok { inputs := [{ buffer := [], pausing := none }],
                     st := [],
                     output := [[5, 7], [11, 13]],
                     writes := [4, 4],
                     written_samples := 4 } ∧
    ¬ ([4, 4] = List.replicate 2 (2 : Nat)) := by decide

/-- C2: refuted on the code (the defect §9 of the spec flags).  Popping a
Silence run of length 1 with frame_size 2 consumes one frame worth and
performs the claimed push-back bookkeeping, but instead of writing zeros
only for the consumed portion at the write position and advancing the
cursor by the consumed amount, the code zero-fills the entire frame of
every output channel (2 writes per channel, destroying the prior
contents 9 at every position) and leaves written_samples at 0. -/
theorem spec_C2_silence_branch_fills_whole_frame :
    drainIter queueAdapter selectFirst 2 2 silenceThenSamples
      = StepOut.cont { inputs := [{ buffer := [BufferItem.Samples [[5, 7], [11, 13]]],
                                    pausing := none }],
                       st := [],
                       output := [[0, 0], [0, 0]],
                       writes := [2, 2],
                       written_samples := 0 } ∧
    silencePushback 3 2 [] = [BufferItem.Silence 1] := by decide

/-- C3: refuted on the code.  When `receive` returns fewer samples than
requested (here 0 of the requested 4), the Samples branch panics: the
deinterleaved channels have length 0 but `clone_from_slice` needs length
`frame_size - written_samples` = 2.  And even when `receive` returns the
full request, `written_samples` advances by the interleaved total 4, not
by the per-channel count 2. -/
theorem spec_C3_short_receive_panics :
    drainIter deadAdapter selectFirst 2 2 samplesOnlyDead = StepOut.panicked ∧
    drainIter queueAdapter selectFirst 2 2 samplesOnlyQueue
      = StepOut.cont { inputs := [{ buffer := [], pausing := none }],
                       st := [],
                       output := [[5, 7], [11, 13]],
                       writes := [2, 2],
                       written_samples := 4 } := by decide

/-- C4 counterexample: with frame_size 4801 (a positive frame size), a
loud frame followed by a silent frame stores a SilenceRun of length 4801,
exceeding the 4800 bound the claim asserts for every positive frame size.
Only extending an existing tail run saturates at 4800 (src/main.rs
line 139); a freshly appended run (line 145) is created at the full frame
size with no cap. -/
theorem spec_C4_counterexample :
    ingestFrame (ingestFrame [] bigLoudFrame 4801) bigSilentFrame 4801
      = [BufferItem.Samples bigLoudFrame, BufferItem.Silence 4801] ∧
    4800 < 4801 := by
  have hloud : frameSilent bigLoudFrame = false := by decide
  have hsil : frameSilent bigSilentFrame = true := by
    simp only [frameSilent, bigSilentFrame, List.all_eq_true,
      List.mem_singleton, List.mem_replicate]
    intro port hport x hx
    rw [hport, List.mem_replicate] at hx
    rw [hx.2]
    decide
  have h1 : ingestFrame [] bigLoudFrame 4801 = [BufferItem.Samples bigLoudFrame] := by
    simp [ingestFrame, hloud, backIsSilence]
  refine ⟨?_, by norm_num⟩
  rw [h1]
  simp [ingestFrame, hsil]

lemma runsCapped_sublist {a b : List BufferItem} (hs : a.Sublist b)
    (h : runsCapped b = true) : runsCapped a = true := by
  unfold runsCapped at h ⊢
  rw [List.all_eq_true] at h ⊢
  exact fun x hx => h x (hs.subset hx)

/-- C4 amended: provided the device frame length is at most 4800 samples,
the 4800 cap is an invariant of the queue: it is preserved by every
ingest (for any frame) and by every continuing drain iteration, and a
returning drain iteration leaves the buffers untouched. -/
theorem spec_C4_silence_cap_amended :
    (∀ (buffer : List BufferItem) (frame : List (List ℚ)) (frame_size : Nat),
      frame_size ≤ 4800 → runsCapped buffer = true →
      runsCapped (ingestFrame buffer frame frame_size) = true) ∧
    (∀ (σ : Type) (ts : TimeStretch σ) (select : List Input → Option Nat)
        (frame_size channels : Nat) (d e : DrainState σ),
      (∀ inp ∈ d.inputs, runsCapped inp.buffer = true) →
      drainIter ts select frame_size channels d = StepOut.cont e →
      ∀ inp ∈ e.inputs, runsCapped inp.buffer = true) ∧
    (∀ (σ : Type) (ts : TimeStretch σ) (select : List Input → Option Nat)
        (frame_size channels : Nat) (d e : DrainState σ),
      drainIter ts select frame_size channels d = StepOut.done e →
      e.inputs = d.inputs) := by
  refine ⟨?_, ?_, ?_⟩
  · intro buffer frame fs hfs hcap
    unfold ingestFrame
    split
    · split
      · next n heq =>
        rw [runsCapped, List.all_append, Bool.and_eq_true]
        refine ⟨runsCapped_sublist (List.dropLast_sublist buffer) hcap, ?_⟩
        simp [Nat.min_le_left]
      · exact hcap
      · next s heq =>
        rw [runsCapped, List.all_append, Bool.and_eq_true]
        exact ⟨hcap, by simp [hfs]⟩
    · rw [runsCapped, List.all_append, Bool.and_eq_true]
      constructor
      · split
        · exact runsCapped_sublist (List.tail_sublist buffer) hcap
        · exact hcap
      · simp
  · intro σ ts select fs ch d e hcap hstep inp hinp
    unfold drainIter at hstep
    split at hstep
    · split at hstep
      · simp at hstep
      · split at hstep
        · simp at hstep
        · next input hget =>
          split at hstep
          · simp at hstep
          · next samples rest hbuf =>
            unfold samplesBranch at hstep
            split at hstep
            · rw [StepOut.cont.injEq] at hstep
              subst hstep
              simp only [] at hinp
              rcases List.mem_or_eq_of_mem_set hinp with hmem | rfl
              · exact hcap inp hmem
              · have hin : input ∈ d.inputs := List.get?_mem hget
                have h0 := hcap input hin
                rw [hbuf, runsCapped, List.all_cons, Bool.and_eq_true] at h0
                exact h0.2
            · simp at hstep
          · next count rest hbuf =>
            rw [StepOut.cont.injEq] at hstep
            subst hstep
            simp only [] at hinp
            rcases List.mem_or_eq_of_mem_set hinp with hmem | rfl
            · exact hcap inp hmem
            · have hin : input ∈ d.inputs := List.get?_mem hget
              have h0 := hcap input hin
              rw [hbuf, runsCapped, List.all_cons, Bool.and_eq_true] at h0
              have hcount : count ≤ 4800 := by
                have := h0.1
                simpa using this
              unfold silencePushback
              split
              · rw [runsCapped, List.all_cons, Bool.and_eq_true]
                refine ⟨by simp; omega, h0.2⟩
              · exact h0.2
    · simp at hstep
  · intro σ ts select fs ch d e hstep
    unfold drainIter at hstep
    split at hstep
    · split at hstep
      · rw [StepOut.done.injEq] at hstep
        subst hstep
        rfl
      · split at hstep
        · simp at hstep
        · split at hstep
          · simp at hstep
          · unfold samplesBranch at hstep
            split at hstep
            · simp at hstep
            · simp at hstep
          · simp at hstep
    · rw [StepOut.done.injEq] at hstep
      subst hstep
      rfl

/-- C4 amended witness: a capped buffer stays capped through a silent
ingest at frame size 256, and through a drain iteration that pushes a
silence remainder back. -/
theorem spec_C4_silence_cap_witness :
    runsCapped (ingestFrame [BufferItem.Silence 4800] [[(0 : ℚ)]] 256) = true :=
  spec_C4_silence_cap_amended.1 [BufferItem.Silence 4800] [[(0 : ℚ)]] 256
    (by decide) (by decide)

lemma sum_measure_set : ∀ (l : List Input) (i : Nat) (x inp : Input),
    l.get? i = some inp →
    ((l.set i x).map Input.measure).sum + Input.measure inp
      = (l.map Input.measure).sum + Input.measure x := by
  intro l
  induction l with
  | nil =>
    intro i x inp h
    simp at h
  | cons hd tl ih =>
    intro i x inp h
    cases i with
    | zero =>
      simp only [List.get?] at h
      injection h with h
      subst h
      simp only [List.set, List.map_cons, List.sum_cons]
      omega
    | succ n =>
      simp only [List.get?] at h
      have hrec := ih n x inp h
      simp only [List.set, List.map_cons, List.sum_cons]
      omega

lemma drainIter_cont_measure {σ : Type} (ts : TimeStretch σ)
    (select : List Input → Option Nat) (fs ch : Nat) (d e : DrainState σ)
    (h : drainIter ts select fs ch d = StepOut.cont e) :
    drainMeasure e < drainMeasure d := by
  unfold drainIter at h
  split at h
  · next hw =>
    split at h
    · simp at h
    · split at h
      · simp at h
      · next input hget =>
        split at h
        · simp at h
        · next samples rest hbuf =>
          unfold samplesBranch at h
          split at h
          · rw [StepOut.cont.injEq] at h
            subst h
            unfold drainMeasure
            simp only []
            have hs := sum_measure_set d.inputs _ { input with buffer := rest }
              input hget
            have hmeas : Input.measure input
                = 1 + Input.measure { input with buffer := rest } := by
              unfold Input.measure
              rw [hbuf]
              simp [List.sum_cons, BufferItem.measure]
            rw [hmeas] at hs
            omega
          · simp at h
        · next count rest hbuf =>
          rw [StepOut.cont.injEq] at h
          subst h
          unfold drainMeasure
          simp only []
          have hs := sum_measure_set d.inputs _
            { input with buffer := silencePushback count fs rest } input hget
          have hmeas : Input.measure input
              = count + 1 + (rest.map BufferItem.measure).sum := by
            unfold Input.measure
            rw [hbuf]
            simp [List.sum_cons, BufferItem.measure]
          have hfs : 0 < fs := by omega
          have hnew : Input.measure { input with buffer := silencePushback count fs rest }
              < count + 1 + (rest.map BufferItem.measure).sum := by
            unfold Input.measure silencePushback
            split
            · next hcnt =>
              have hlt : fs < count := by
                omega
              simp only [List.map_cons, List.sum_cons, BufferItem.measure]
              omega
            · simp only []
              omega
          omega
  · simp at h

lemma drainLoop_completes {σ : Type} (ts : TimeStretch σ)
    (select : List Input → Option Nat) (fs ch : Nat) :
    ∀ (fuel : Nat) (d : DrainState σ), drainMeasure d < fuel →
      drainLoop ts select fs ch fuel d ≠ LoopOut.fuelOut := by
  intro fuel
  induction fuel with
  | zero =>
    intro d h
    exact absurd h (Nat.not_lt_zero _)
  | succ f ih =>
    intro d h
    unfold drainLoop
    cases hstep : drainIter ts select fs ch d with
    | done e => simp
    | panicked => simp
    | cont e =>
      simp only []
      have hlt := drainIter_cont_measure ts select fs ch d e hstep
      exact ih e (by omega)

/-- C10: the Step-B drain loop always terminates: with fuel one more than
the measure of the buffered units (Samples units count 1, Silence runs
count length + 1), the loop never exhausts its fuel, for every adapter,
every selection policy, every frame size and channel count, and every
starting state — in particular even when `receive` keeps returning zero
samples (each iteration removes one Samples unit or strictly shrinks a
front Silence run, or the loop returns via the no-backlog fallback). -/
theorem spec_C10_drain_loop_terminates (σ : Type) (ts : TimeStretch σ)
    (select : List Input → Option Nat) (frame_size channels : Nat)
    (d : DrainState σ) :
    drainLoop ts select frame_size channels (drainMeasure d + 1) d
      ≠ LoopOut.fuelOut :=
  drainLoop_completes ts select frame_size channels (drainMeasure d + 1) d
    (Nat.lt_succ_self _)

lemma head?_drop_eq_get? {α : Type} (l : List α) (n : Nat) :
    (l.drop n).head? = l.get? n := by
  rw [List.head?_drop, List.get?_eq_getElem?]

lemma drop_succ_tail {α : Type} (l : List α) (q : Nat) :
    l.drop (q + 1) = (l.drop q).tail := by
  rw [← List.drop_one, List.drop_drop]

lemma stateAfter_succ {α : Type} (m : Nat) (s : InterleaveAll α) :
    stateAfter (m + 1) s = (stateAfter m s).next.2 := by
  induction m generalizing s with
  | zero => rfl
  | succ k ih =>
    calc stateAfter (k + 2) s = stateAfter (k + 1) s.next.2 := rfl
    _ = (stateAfter k s.next.2).next.2 := ih s.next.2
    _ = (stateAfter (k + 1) s).next.2 := rfl

lemma nthNext_succ_shift {α : Type} (m : Nat) (s : InterleaveAll α) :
    nthNext (m + 1) s = nthNext m s.next.2 := rfl

lemma succ_div_mod_of_lt (K m : Nat) (hK : 0 < K) (h : m % K + 1 < K) :
    (m + 1) / K = m / K ∧ (m + 1) % K = m % K + 1 := by
  have h0 := Nat.div_add_mod m K
  have hm : m + 1 = (m % K + 1) + K * (m / K) := by omega
  constructor
  · rw [hm, Nat.add_mul_div_left _ _ hK, Nat.div_eq_of_lt h]
    omega
  · rw [hm, Nat.add_mul_mod_self_left, Nat.mod_eq_of_lt h]

lemma succ_div_mod_of_eq (K m : Nat) (hK : 0 < K) (h : m % K + 1 = K) :
    (m + 1) / K = m / K + 1 ∧ (m + 1) % K = 0 := by
  have h0 := Nat.div_add_mod m K
  have hm : m + 1 = K * (m / K + 1) := by
    rw [Nat.mul_succ]
    omega
  constructor
  · rw [hm, Nat.mul_div_cancel_left _ hK]
  · rw [hm, Nat.mul_mod_right]

lemma dropCount_self_step (K m : Nat) (hK : 0 < K) :
    dropCount K (m % K) (m + 1) = m / K + 1 := by
  have hr : m % K < K := Nat.mod_lt _ hK
  rcases Nat.lt_or_ge (m % K + 1) K with hcase | hcase
  · obtain ⟨hdiv, hmod⟩ := succ_div_mod_of_lt K m hK hcase
    unfold dropCount
    rw [hdiv, hmod, if_pos (Nat.lt_succ_self _)]
  · have heq : m % K + 1 = K := by omega
    obtain ⟨hdiv, hmod⟩ := succ_div_mod_of_eq K m hK heq
    unfold dropCount
    rw [hdiv, hmod, if_neg (by omega)]

lemma dropCount_other_step (K j m : Nat) (hK : 0 < K) (hjK : j < K)
    (hne : j ≠ m % K) : dropCount K j (m + 1) = dropCount K j m := by
  have hr : m % K < K := Nat.mod_lt _ hK
  rcases Nat.lt_or_ge (m % K + 1) K with hcase | hcase
  · obtain ⟨hdiv, hmod⟩ := succ_div_mod_of_lt K m hK hcase
    unfold dropCount
    rw [hdiv, hmod]
    by_cases hj : j < m % K
    · rw [if_pos hj, if_pos (by omega)]
    · rw [if_neg hj, if_neg (by omega)]
  · have heq : m % K + 1 = K := by omega
    obtain ⟨hdiv, hmod⟩ := succ_div_mod_of_eq K m hK heq
    unfold dropCount
    rw [hdiv, hmod]
    rw [if_neg (by omega), if_pos (by omega)]

lemma dropCount_at_self (K m : Nat) : dropCount K (m % K) m = m / K := by
  unfold dropCount
  rw [if_neg (by omega)]
  omega

lemma stateAfter_interleave_all {α : Type} (ls : List (List α))
    (hK : 0 < ls.length) : ∀ (m : Nat),
    (stateAfter m (interleave_all ls)).index = m % ls.length ∧
    (stateAfter m (interleave_all ls)).iterators.length = ls.length ∧
    ∀ j, j < ls.length →
      (stateAfter m (interleave_all ls)).iterators.get? j
        = (ls.get? j).map (fun l => l.drop (dropCount ls.length j m)) := by
  intro m
  induction m with
  | zero =>
    refine ⟨(Nat.zero_mod _).symm, rfl, ?_⟩
    intro j hj
    show ls.get? j = (ls.get? j).map (fun l => l.drop (dropCount ls.length j 0))
    have hdc : dropCount ls.length j 0 = 0 := by
      unfold dropCount
      simp
    rw [hdc]
    cases h : ls.get? j with
    | none => rfl
    | some l => simp
  | succ m ih =>
    obtain ⟨hidx, hlen, hget⟩ := ih
    have hr : m % ls.length < ls.length := Nat.mod_lt _ hK
    have hsome : ls.get? (m % ls.length)
        = some (ls.get ⟨m % ls.length, hr⟩) := List.get?_eq_get hr
    have hcur : (stateAfter m (interleave_all ls)).iterators.get?
        (stateAfter m (interleave_all ls)).index
        = some ((ls.get ⟨m % ls.length, hr⟩).drop (m / ls.length)) := by
      rw [hidx, hget _ hr, hsome, dropCount_at_self]
      rfl
    rw [stateAfter_succ]
    cases hd : (ls.get ⟨m % ls.length, hr⟩).drop (m / ls.length) with
    | nil =>
      have hnext : (stateAfter m (interleave_all ls)).next.2
          = { index := ((stateAfter m (interleave_all ls)).index + 1)
                % (stateAfter m (interleave_all ls)).iterators.length,
              iterators := (stateAfter m (interleave_all ls)).iterators } := by
        unfold InterleaveAll.next
        rw [hcur, hd]
      rw [hnext]
      refine ⟨?_, hlen, ?_⟩
      · simp only []
        rw [hidx, hlen, Nat.mod_add_mod]
      · intro j hj
        simp only []
        by_cases hcase : j = m % ls.length
        · subst hcase
          rw [hget _ hj, hsome]
          simp only [Option.map_some']
          rw [dropCount_at_self, dropCount_self_step _ _ hK,
            drop_succ_tail, hd]
          rfl
        · rw [hget _ hj]
          simp only [dropCount_other_step _ _ _ hK hj hcase]
    | cons x xs =>
      have hnext : (stateAfter m (interleave_all ls)).next.2
          = { index := ((stateAfter m (interleave_all ls)).index + 1)
                % (stateAfter m (interleave_all ls)).iterators.length,
              iterators := (stateAfter m (interleave_all ls)).iterators.set
                (stateAfter m (interleave_all ls)).index xs } := by
        unfold InterleaveAll.next
        rw [hcur, hd]
      rw [hnext]
      refine ⟨?_, ?_, ?_⟩
      · simp only []
        rw [hidx, hlen, Nat.mod_add_mod]
      · simp only [List.length_set]
        exact hlen
      · intro j hj
        simp only []
        by_cases hcase : j = m % ls.length
        · subst hcase
          rw [hidx, List.get?_set_eq, hget _ hj, hsome]
          simp only [Option.map_eq_map, Option.map_some']
          rw [dropCount_self_step _ _ hK, drop_succ_tail, hd]
          rfl
        · rw [hidx, List.get?_set_ne _ _ (fun hh => hcase hh.symm),
            hget _ hj]
          simp only [dropCount_other_step _ _ _ hK hj hcase]

lemma next_fst_of_get {α : Type} (s : InterleaveAll α) (l : List α)
    (h : s.iterators.get? s.index = some l) : s.next.1 = l.head? := by
  unfold InterleaveAll.next
  rw [h]
  cases l <;> rfl

/-- the exact round-robin production law of the interleaving iterator:
the (m+1)-st call to `next` yields element `m / K` of sequence `m % K`
(and `none` exactly when that sequence is already exhausted there). -/
lemma nthNext_interleave_all {α : Type} (ls : List (List α))
    (hK : 0 < ls.length) (m : Nat) :
    nthNext m (interleave_all ls)
      = (ls.get? (m % ls.length)).bind (fun l => l.get? (m / ls.length)) := by
  obtain ⟨hidx, hlen, hget⟩ := stateAfter_interleave_all ls hK m
  have hr : m % ls.length < ls.length := Nat.mod_lt _ hK
  have hsome : ls.get? (m % ls.length)
      = some (ls.get ⟨m % ls.length, hr⟩) := List.get?_eq_get hr
  have hcur : (stateAfter m (interleave_all ls)).iterators.get?
      (stateAfter m (interleave_all ls)).index
      = some ((ls.get ⟨m % ls.length, hr⟩).drop (m / ls.length)) := by
    rw [hidx, hget _ hr, hsome, dropCount_at_self]
    rfl
  unfold nthNext
  rw [next_fst_of_get _ _ hcur, head?_drop_eq_get?, hsome]
  rfl

lemma collectIA_get? {α : Type} : ∀ (j fuel : Nat) (s : InterleaveAll α),
    j < fuel → (∀ i, i < j → (nthNext i s).isSome = true) →
    (collectIA fuel s).get? j = nthNext j s := by
  intro j
  induction j with
  | zero =>
    intro fuel s hf hall
    cases fuel with
    | zero => omega
    | succ f =>
      have h0e : nthNext 0 s = s.next.1 := rfl
      unfold collectIA
      cases hn : s.next with
      | mk o t =>
        cases o with
        | none =>
          rw [h0e, hn]
          rfl
        | some x =>
          rw [h0e, hn]
          rfl
  | succ j ih =>
    intro fuel s hf hall
    cases fuel with
    | zero => omega
    | succ f =>
      have h0e : nthNext 0 s = s.next.1 := rfl
      unfold collectIA
      cases hn : s.next with
      | mk o t =>
        cases o with
        | none =>
          exfalso
          have h0 : (nthNext 0 s).isSome = true := hall 0 (Nat.succ_pos _)
          rw [h0e, hn] at h0
          simp at h0
        | some x =>
          have hstep : ∀ i, nthNext (i + 1) s = nthNext i t := by
            intro i
            rw [nthNext_succ_shift, hn]
          show (x :: collectIA f t).get? (j + 1) = nthNext (j + 1) s
          rw [List.get?_cons_succ,
            ih f t (by omega) (fun i hi => hstep i ▸ hall (i + 1) (by omega)),
            hstep j]

lemma totalLen_eq_mul {α : Type} : ∀ (ls : List (List α)) (n : Nat),
    (∀ l ∈ ls, l.length = n) → totalLen ls = ls.length * n := by
  intro ls
  induction ls with
  | nil =>
    intro n h
    simp [totalLen]
  | cons hd tl ih =>
    intro n h
    have hhd : hd.length = n := h hd (List.mem_cons_self _ _)
    have htl := ih n (fun l hl => h l (List.mem_cons_of_mem _ hl))
    unfold totalLen at htl ⊢
    simp only [List.map_cons, List.sum_cons, List.length_cons]
    rw [hhd, htl, Nat.succ_mul]
    omega

/-- C8 counterexample: with sequences [1] and [10, 20], collecting the
interleaved iterator yields [1, 10] and then stops, because the third
`next` call hits the exhausted first slot and propagates its `none`
(src/interleave_all.rs line 31) instead of skipping the slot; element 20
of the second sequence never appears, refuting the claim that every
element of every sequence is eventually yielded for unequal lengths. -/
theorem spec_C8_counterexample :
    collectAll [[(1 : Nat)], [10, 20]] = [1, 10] ∧
    ¬ ((20 : Nat) ∈ collectAll [[(1 : Nat)], [10, 20]]) := by decide

/-- C8 amended: for K ≥ 1 sequences the iterator is exactly round-robin —
the (m+1)-st call to `next` yields element m / K of sequence m % K, with
the `none` of an exhausted sequence propagated (not skipped) once that
sequence runs out at its turn, which under standard iterator consumption
ends the combined sequence; consequently, when all sequences have equal
length n the collected output has length K * n and contains every element
of every sequence in round-robin order. -/
theorem spec_C8_roundrobin_amended {α : Type} (ls : List (List α))
    (hK : 0 < ls.length) :
    (∀ m, nthNext m (interleave_all ls)
        = (ls.get? (m % ls.length)).bind (fun l => l.get? (m / ls.length))) ∧
    (∀ n, (∀ l ∈ ls, l.length = n) →
      (collectAll ls).length = ls.length * n ∧
      ∀ j, j < ls.length * n →
        (collectAll ls).get? j
          = (ls.get? (j % ls.length)).bind (fun l => l.get? (j / ls.length))) := by
  have hmain := nthNext_interleave_all ls hK
  refine ⟨hmain, ?_⟩
  intro n hlen
  have htot : totalLen ls = ls.length * n := totalLen_eq_mul ls n hlen
  have hsome : ∀ i, i < ls.length * n →
      (nthNext i (interleave_all ls)).isSome = true := by
    intro i hi
    rw [hmain i]
    have hr : i % ls.length < ls.length := Nat.mod_lt _ hK
    have hg : ls.get? (i % ls.length) = some (ls.get ⟨i % ls.length, hr⟩) :=
      List.get?_eq_get hr
    rw [hg]
    simp only [Option.some_bind]
    have hli : (ls.get ⟨i % ls.length, hr⟩).length = n :=
      hlen _ (ls.get_mem _ _)
    have hdiv : i / ls.length < n := by
      rw [Nat.div_lt_iff_lt_mul hK, Nat.mul_comm]
      exact hi
    rw [List.get?_eq_get (by rw [hli]; exact hdiv)]
    rfl
  have hnone : nthNext (ls.length * n) (interleave_all ls) = none := by
    rw [hmain, Nat.mul_mod_right, Nat.mul_div_cancel_left _ hK]
    have h0 : ls.get? 0 = some (ls.get ⟨0, hK⟩) := List.get?_eq_get hK
    rw [h0]
    simp only [Option.some_bind]
    rw [List.get?_eq_none, hlen _ (ls.get_mem _ _)]
  have hub : (collectAll ls).get? (ls.length * n) = none := by
    unfold collectAll
    rw [collectIA_get? (ls.length * n) (totalLen ls + 1) (interleave_all ls)
      (by rw [htot]; omega) (fun i hi => hsome i hi)]
    exact hnone
  have hlb : ∀ j, j < ls.length * n →
      ((collectAll ls).get? j).isSome = true := by
    intro j hj
    unfold collectAll
    rw [collectIA_get? j (totalLen ls + 1) (interleave_all ls)
      (by rw [htot]; omega) (fun i hi => hsome i (by omega))]
    exact hsome j hj
  constructor
  · have h1 : (collectAll ls).length ≤ ls.length * n := List.get?_eq_none.mp hub
    have h2 : ¬ (collectAll ls).length < ls.length * n := by
      intro hc
      have hx := hlb _ hc
      rw [List.get?_eq_none.mpr (le_refl _)] at hx
      simp at hx
    omega
  · intro j hj
    unfold collectAll
    rw [collectIA_get? j (totalLen ls + 1) (interleave_all ls)
      (by rw [htot]; omega) (fun i hi => hsome i (by omega))]
    exact hmain j

/-- C8 witness: two sequences of length two; the fourth `next` call
yields element 1 of sequence 1, and the collected output has all
2 * 2 elements. -/
theorem spec_C8_roundrobin_witness :
    nthNext 3 (interleave_all [[(1 : Nat), 5], [2, 6]]) = some 6 ∧
    (collectAll [[(1 : Nat), 5], [2, 6]]).length = 2 * 2 := by
  have h := spec_C8_roundrobin_amended [[(1 : Nat), 5], [2, 6]] (by decide)
  refine ⟨?_, (h.2 2 (by decide)).1⟩
  rw [h.1 3]
  decide

/-- C9: refuted on the code.  Input::urgency converts buffered_samples to
f32 before taking the square root (src/main.rs line 70); the cast rounds
2^25 + 1 and 2^25 to the same f32 value (round to nearest, ties to even,
24 significand bits), so two inputs with equal (zero) leading silence
penalty and strictly different backlogs receive exactly equal urgency
scores for every square-root function — the claimed strict monotonicity
fails on the code. -/
lemma buffered_samples_single_replicate (n : Nat) (x : ℚ) :
    (Input.mk [BufferItem.Samples [List.replicate n x]] none).buffered_samples
      = n := by
  simp [Input.buffered_samples, BufferItem.sampleCount, List.headI]

theorem spec_C9_urgency_not_strictly_monotone :
    f32OfUsize (2 ^ 25 + 1) = f32OfUsize (2 ^ 25) ∧
    hugeInputA.buffered_samples = 2 ^ 25 + 1 ∧
    hugeInputB.buffered_samples = 2 ^ 25 ∧
    silencePenalty hugeInputA = 0 ∧
    silencePenalty hugeInputB = 0 ∧
    ∀ sqrtF : ℚ → ℚ, hugeInputA.urgency sqrtF = hugeInputB.urgency sqrtF := by
  have hconv : f32OfUsize (2 ^ 25 + 1) = f32OfUsize (2 ^ 25) := by decide
  have hA : hugeInputA.buffered_samples = 2 ^ 25 + 1 :=
    buffered_samples_single_replicate (2 ^ 25 + 1) 1
  have hB : hugeInputB.buffered_samples = 2 ^ 25 :=
    buffered_samples_single_replicate (2 ^ 25) 1
  refine ⟨hconv, hA, hB, rfl, rfl, ?_⟩
  intro sqrtF
  unfold Input.urgency
  rw [hA, hB]
  unfold usizeToF32
  rw [hconv]
  have hpA : silencePenalty hugeInputA = 0 := rfl
  have hpB : silencePenalty hugeInputB = 0 := rfl
  rw [hpA, hpB]
